import Mathlib

/-!
Shallow embedding of the adaptive scheduling and matching engine of the
Q-Screep colony code (the Build1 modules together with the room manager
variants), and theorems settling the specification claims.  Every
definition is a direct translation of the corresponding JavaScript
function.  JavaScript number truthiness on tick fields is rendered as a
test against zero, object key maps are rendered as association lists in
key insertion order, and JavaScript numeric subtraction of ticks is
rendered in the integers.
-/

namespace QScreep

/-- Work tiers accepted by shouldExecute in src/Build1/utils.js. -/
inductive Tier
  | critical
  | high
  | medium
  | low
deriving DecidableEq, Repr

/-- Emergency levels stored in the global emergencyMode object by
src/Build1/main.js: the string critical, or the string high. -/
inductive EmergencyLevel
  | high
  | critical
deriving DecidableEq, Repr

/-- Translation of utils.shouldExecute (src/Build1/utils.js lines 192-240).
The per-tick result cache is omitted: it stores and returns the very value
computed below for the same tick, so it does not change the function.  The
simulation-room bypass is the boolean argument.  The emergency branch reads
the level field of the global emergencyMode object when that object is set,
and any level other than critical takes the critical-or-high branch, which
for the two levels actually stored means the high level. -/
def shouldExecute (priority : Tier) (isSimulation : Bool)
    (emergencyMode : Option EmergencyLevel) (bucket : Nat) : Bool :=
  if priority = Tier.critical then true
  else if isSimulation then true
  else
    match emergencyMode with
    | some lvl =>
        if lvl = EmergencyLevel.critical then priority = Tier.critical
        else priority = Tier.critical ∨ priority = Tier.high
    | none =>
        if bucket < 1000 then priority = Tier.critical
        else if bucket < 3000 then priority = Tier.critical ∨ priority = Tier.high
        else if bucket < 7000 then ¬ priority = Tier.low
        else true

/-- Budget operating levels named by the specification in section 4.3. -/
inductive BudgetLevel
  | normal
  | degradedHigh
  | degradedCritical
deriving DecidableEq, Repr

/-- The emergencyMode contents corresponding to each specification level:
Normal is the absence of the global emergencyMode object. -/
def levelEmergency : BudgetLevel → Option EmergencyLevel
  | BudgetLevel.normal => none
  | BudgetLevel.degradedHigh => some EmergencyLevel.high
  | BudgetLevel.degradedCritical => some EmergencyLevel.critical

/-- Modelled from the spec: the gate table of section 4.3, written from the
words of the specification for comparison with shouldExecute.  Critical
always runs; under Degraded-Critical only critical; under Degraded-High
critical and high; under Normal the reserve decides: below the low
threshold critical only, below the medium threshold critical and high,
below the high threshold everything except low, otherwise everything. -/
def specGate (level : BudgetLevel) (tier : Tier) (bucket : Nat) : Bool :=
  match level with
  | BudgetLevel.degradedCritical => tier = Tier.critical
  | BudgetLevel.degradedHigh => tier = Tier.critical ∨ tier = Tier.high
  | BudgetLevel.normal =>
      if bucket < 1000 then tier = Tier.critical
      else if bucket < 3000 then tier = Tier.critical ∨ tier = Tier.high
      else if bucket < 7000 then ¬ tier = Tier.low
      else true

/-- C2: for every budget level and every work tier, the gate function
shouldExecute returns exactly the table of section 4.3 of the
specification, outside simulation rooms: critical always runs; under
Degraded-Critical only critical runs; under Degraded-High critical and
high run; under Normal the result depends on the current bucket reserve
exactly as the table states. -/
theorem shouldExecute_matches_spec_table (level : BudgetLevel) (tier : Tier)
    (bucket : Nat) :
    shouldExecute tier false (levelEmergency level) bucket =
      specGate level tier bucket := by
  cases level <;> cases tier <;>
    simp [shouldExecute, specGate, levelEmergency]

/-- The global emergencyMode object of src/Build1/main.js: its start tick,
its level, and the optional reason string set by the error handler. -/
structure EmergencyMode where
  startTime : Nat
  level : EmergencyLevel
  reason : Option String
deriving DecidableEq, Repr

/-- Loop-global state mutated by module.exports.loop in src/Build1/main.js:
the rolling cpuHistory window and the emergencyMode object. -/
structure LoopState where
  cpuHistory : List ℚ
  emergencyMode : Option EmergencyMode
deriving DecidableEq, Repr

/-- Translation of the cpuHistory push in src/Build1/main.js lines 451-453:
push this cycles utilization ratio, then drop the oldest sample when more
than ten are held. -/
def pushHistory (h : List ℚ) (u : ℚ) : List ℚ :=
  let h2 := h ++ [u]
  if 10 < h2.length then h2.tail else h2

/-- Translation of the rolling average of src/Build1/main.js line 456: the
sum of the stored ratios divided by their count. -/
def avgCpuUsage (h : List ℚ) : ℚ :=
  h.sum / (h.length : ℚ)

/-- Translation of the emergency transition at the end of the loop,
src/Build1/main.js lines 459-471: on a high average or a low bucket the
emergencyMode object is created if absent, with level critical exactly when
the bucket is below 500 and level high otherwise; an existing object is
kept.  Otherwise, an existing object is cleared when the average is below
0.7 and the bucket above 3000. -/
def emergencyTransition (hist : List ℚ) (em : Option EmergencyMode)
    (bucket : Nat) (time : Nat) : Option EmergencyMode :=
  let avg := avgCpuUsage hist
  if avg > 9/10 ∨ bucket < 1000 then
    match em with
    | none =>
        some { startTime := time
               level := if bucket < 500 then EmergencyLevel.critical
                        else EmergencyLevel.high
               reason := none }
    | some m => some m
  else
    match em with
    | some _ => if avg < 7/10 ∧ 3000 < bucket then none else em
    | none => none

/-- One completed cycle of module.exports.loop as far as the emergency
bookkeeping is concerned: push the utilization sample, then apply the
transition rule with the updated history. -/
def endOfLoopUpdate (s : LoopState) (u : ℚ) (bucket : Nat) (time : Nat) :
    LoopState :=
  let hist := pushHistory s.cpuHistory u
  { cpuHistory := hist
    emergencyMode := emergencyTransition hist s.emergencyMode bucket time }

/-- Translation of the top-level errorHandler of src/Build1/main.js lines
144-155: an exception escaping the loop body activates emergencyMode at
level critical with the reason string, replacing whatever was there. -/
def errorHandler (s : LoopState) (time : Nat) : LoopState :=
  { s with
    emergencyMode :=
      some { startTime := time
             level := EmergencyLevel.critical
             reason := some "uncaught_exception" } }

/-- What one invocation of module.exports.loop does to the loop-global
state: either it runs to completion with some utilization ratio and final
bucket, or an exception escapes to the try-catch at the top and the
errorHandler runs.  A faulted cycle performs none of the end-of-loop
bookkeeping, since the exception aborts the body before it. -/
inductive CycleOutcome
  | ok (utilization : ℚ) (bucket : Nat)
  | fault
deriving DecidableEq, Repr

/-- One invocation of module.exports.loop on the loop-global state. -/
def runCycle (s : LoopState) (time : Nat) : CycleOutcome → LoopState
  | CycleOutcome.ok u b => endOfLoopUpdate s u b time
  | CycleOutcome.fault => errorHandler s time

/-- A run of consecutive cycles, one per tick. -/
def runCycles (s : LoopState) (time : Nat) : List CycleOutcome → LoopState
  | [] => s
  | c :: cs => runCycles (runCycle s time c) (time + 1) cs

/-- Scenario A of the specification: ten consecutive completed cycles with
utilization ratio 0.95 and a constant bucket value, starting from a fresh
loop state. -/
def scenarioARun (b t : Nat) : LoopState :=
  runCycles ⟨[], none⟩ t (List.replicate 10 (CycleOutcome.ok (95/100) b))

lemma avg_replicate (n : Nat) (hn : n ≠ 0) (v : ℚ) :
    avgCpuUsage (List.replicate n v) = v := by
  have hne : (n : ℚ) ≠ 0 := Nat.cast_ne_zero.mpr hn
  rw [avgCpuUsage, List.sum_replicate, List.length_replicate, nsmul_eq_mul,
    mul_div_cancel_left₀ _ hne]

lemma pushHistory_replicate (k : Nat) (hk : k + 1 ≤ 10) (v : ℚ) :
    pushHistory (List.replicate k v) v = List.replicate (k + 1) v := by
  rw [pushHistory, ← List.replicate_succ']
  simp only [List.length_replicate]
  rw [if_neg (by omega)]

lemma runCycles_stays (m : EmergencyMode) (b : Nat) :
    ∀ n k t, 1 ≤ k → k + n ≤ 10 →
    runCycles ⟨List.replicate k (95/100), some m⟩ t
        (List.replicate n (CycleOutcome.ok (95/100) b)) =
      ⟨List.replicate (k + n) (95/100), some m⟩ := by
  intro n
  induction n with
  | zero => intro k t _ _; simp [runCycles]
  | succ n ih =>
      intro k t hk hkn
      have hstep :
          runCycle ⟨List.replicate k (95/100), some m⟩ t
              (CycleOutcome.ok (95/100) b) =
            ⟨List.replicate (k + 1) (95/100), some m⟩ := by
        show endOfLoopUpdate ⟨List.replicate k (95/100), some m⟩ (95/100) b t =
          ⟨List.replicate (k + 1) (95/100), some m⟩
        rw [endOfLoopUpdate]
        simp only
        rw [pushHistory_replicate k (by omega)]
        rw [emergencyTransition, avg_replicate (k + 1) (by omega)]
        rw [if_pos (Or.inl (by norm_num))]
      have harith : k + (n + 1) = (k + 1) + n := by omega
      rw [List.replicate_succ, runCycles, hstep, harith]
      exact ih (k + 1) (t + 1) (by omega) (by omega)

lemma scenarioARun_eq (b t : Nat) :
    scenarioARun b t =
      ⟨List.replicate 10 (95/100),
        some ⟨t, if b < 500 then EmergencyLevel.critical
                 else EmergencyLevel.high, none⟩⟩ := by
  have hfirst :
      runCycle ⟨[], none⟩ t (CycleOutcome.ok (95/100) b) =
        ⟨List.replicate 1 (95/100),
          some ⟨t, if b < 500 then EmergencyLevel.critical
                   else EmergencyLevel.high, none⟩⟩ := by
    show endOfLoopUpdate ⟨[], none⟩ (95/100) b t = _
    rw [endOfLoopUpdate]
    simp only
    have hpush : pushHistory ([] : List ℚ) (95/100) = [95/100] := by
      simp [pushHistory]
    rw [hpush]
    have havg : avgCpuUsage [(95/100 : ℚ)] = 95/100 := by
      simpa using avg_replicate 1 (by omega) (95/100)
    rw [emergencyTransition, havg, if_pos (Or.inl (by norm_num))]
    rfl
  rw [scenarioARun, List.replicate_succ, runCycles, hfirst]
  exact runCycles_stays _ b 9 1 (t + 1) (by omega) (by omega)

/-- C3 counterexample: ten cycles of utilization 0.95 with the reserve at
700, which is below the low threshold of 1000 but not below 500, leave the
budget controller at level high, not at level critical as the claim
states. -/
theorem scenarioA_low_reserve_gives_high :
    (scenarioARun 700 0).emergencyMode.map EmergencyMode.level =
        some EmergencyLevel.high ∧
      ¬ (scenarioARun 700 0).emergencyMode.map EmergencyMode.level =
        some EmergencyLevel.critical := by
  rw [scenarioARun_eq, if_neg (by omega)]
  exact ⟨rfl, by simp⟩

/-- C3 amended: ten consecutive cycles of utilization ratio 0.95 with the
reserve below the critical threshold of 500 put the budget controller at
level Degraded-Critical, after which shouldExecute returns false for the
low and medium tiers and true for the critical tier. -/
theorem scenarioA_critical (b t : Nat) (hb : b < 500) :
    (scenarioARun b t).emergencyMode.map EmergencyMode.level =
        some EmergencyLevel.critical ∧
      shouldExecute Tier.low false
        ((scenarioARun b t).emergencyMode.map EmergencyMode.level) b = false ∧
      shouldExecute Tier.medium false
        ((scenarioARun b t).emergencyMode.map EmergencyMode.level) b = false ∧
      shouldExecute Tier.critical false
        ((scenarioARun b t).emergencyMode.map EmergencyMode.level) b = true := by
  rw [scenarioARun_eq, if_pos hb]
  refine ⟨rfl, ?_, ?_, ?_⟩ <;> simp [shouldExecute]

/-- C3 witness: the amended theorem applied at bucket 400 and start tick
1000. -/
theorem scenarioA_critical_witness :
    (scenarioARun 400 1000).emergencyMode.map EmergencyMode.level =
        some EmergencyLevel.critical ∧
      shouldExecute Tier.low false
        ((scenarioARun 400 1000).emergencyMode.map EmergencyMode.level) 400 =
        false ∧
      shouldExecute Tier.medium false
        ((scenarioARun 400 1000).emergencyMode.map EmergencyMode.level) 400 =
        false ∧
      shouldExecute Tier.critical false
        ((scenarioARun 400 1000).emergencyMode.map EmergencyMode.level) 400 =
        true :=
  scenarioA_critical 400 1000 (by decide)

/-- C8 counterexample: a cycle whose exception reaches the top-level
handler forces level critical, but one subsequent completed cycle with
utilization 0.5 and bucket 5000 clears emergencyMode entirely, so the
forced level does not persist for the remainder of the run. -/
theorem orchestratorFault_not_permanent :
    (runCycle ⟨[], none⟩ 0 CycleOutcome.fault).emergencyMode.map
        EmergencyMode.level = some EmergencyLevel.critical ∧
      (runCycles ⟨[], none⟩ 0
        [CycleOutcome.fault, CycleOutcome.ok (1/2) 5000]).emergencyMode =
        none := by
  refine ⟨rfl, ?_⟩
  have hstep2 :
      runCycles ⟨[], none⟩ 0 [CycleOutcome.fault, CycleOutcome.ok (1/2) 5000] =
        endOfLoopUpdate
          ⟨[], some ⟨0, EmergencyLevel.critical, some "uncaught_exception"⟩⟩
          (1/2) 5000 1 := rfl
  rw [hstep2, endOfLoopUpdate]
  simp only
  have hpush : pushHistory ([] : List ℚ) (1/2) = [1/2] := by
    simp [pushHistory]
  rw [hpush]
  have havg : avgCpuUsage [(1/2 : ℚ)] = 1/2 := by
    simpa using avg_replicate 1 (by omega) (1/2)
  rw [emergencyTransition, havg, if_neg (by norm_num),
    if_pos (by norm_num)]

/-- C8 amended: an exception caught at the top of the loop forces
emergencyMode to level critical with the uncaught-exception reason, and a
later completed cycle keeps the stored emergency object unchanged unless
the rolling average drops below 0.7 while the bucket exceeds 3000, in
which case emergencyMode is cleared and the controller returns to
Normal. -/
theorem orchestratorFault_transition (s : LoopState) (m : EmergencyMode)
    (u : ℚ) (b t : Nat) (hm : s.emergencyMode = some m) :
    (runCycle s t CycleOutcome.fault).emergencyMode =
        some ⟨t, EmergencyLevel.critical, some "uncaught_exception"⟩ ∧
      (runCycle s t (CycleOutcome.ok u b)).emergencyMode =
        (if avgCpuUsage (pushHistory s.cpuHistory u) < 7/10 ∧ 3000 < b
         then none else some m) := by
  constructor
  · simp [runCycle, errorHandler]
  · show (endOfLoopUpdate s u b t).emergencyMode = _
    rw [endOfLoopUpdate]
    simp only
    unfold emergencyTransition
    rw [hm]
    by_cases h1 : avgCpuUsage (pushHistory s.cpuHistory u) > 9/10 ∨ b < 1000
    · have hc : ¬ (avgCpuUsage (pushHistory s.cpuHistory u) < 7/10 ∧ 3000 < b) := by
        rintro ⟨ha, hb2⟩
        rcases h1 with h1 | h1
        · linarith
        · omega
      rw [if_pos h1, if_neg hc]
    · rw [if_neg h1]

/-- C8 witness: the amended theorem applied at a concrete degraded state,
utilization 0.5, bucket 5000 and tick 3. -/
theorem orchestratorFault_transition_witness :
    (runCycle ⟨[], some ⟨0, EmergencyLevel.high, none⟩⟩ 3
        CycleOutcome.fault).emergencyMode =
        some ⟨3, EmergencyLevel.critical, some "uncaught_exception"⟩ ∧
      (runCycle ⟨[], some ⟨0, EmergencyLevel.high, none⟩⟩ 3
        (CycleOutcome.ok (1/2) 5000)).emergencyMode =
        (if avgCpuUsage (pushHistory ([] : List ℚ) (1/2)) < 7/10 ∧
            (3000 : Nat) < 5000
         then none else some ⟨0, EmergencyLevel.high, none⟩) :=
  orchestratorFault_transition ⟨[], some ⟨0, EmergencyLevel.high, none⟩⟩
    ⟨0, EmergencyLevel.high, none⟩ (1/2) 5000 3 rfl

/-- A cache slot of utils.cache in src/Build1/utils.js: the write tick and
the stored result. -/
structure CacheEntry (α : Type) where
  time : Nat
  result : α
deriving DecidableEq, Repr

/-- The utils.cache object, rendered as an association list from keys to
slots, most recent assignment first. -/
def MemoCache (α : Type) : Type :=
  List (String × CacheEntry α)

/-- Reading a property of the cache object. -/
def memoLookup {α : Type} (cache : MemoCache α) (key : String) :
    Option (CacheEntry α) :=
  (cache.find? (fun p => p.1 = key)).map (fun p => p.2)

/-- Assigning a property of the cache object: the new slot shadows any
older slot under the same key. -/
def memoStore {α : Type} (cache : MemoCache α) (key : String)
    (e : CacheEntry α) : MemoCache α :=
  (key, e) :: cache.filter (fun p => ¬ p.1 = key)

/-- Translation of utils.memoize (src/Build1/utils.js lines 17-31): when a
slot exists under the key and the current tick minus its write tick is
strictly below the ttl, the stored result is returned and the cache is
untouched; otherwise the compute function runs, its result is stored with
the current tick as write tick, and that result is returned. -/
def memoize {α : Type} (cache : MemoCache α) (now : Nat) (key : String)
    (fn : Unit → α) (ttl : ℤ) : α × MemoCache α :=
  match memoLookup cache key with
  | some e =>
      if (now : ℤ) - (e.time : ℤ) < ttl then (e.result, cache)
      else
        let r := fn ()
        (r, memoStore cache key ⟨now, r⟩)
  | none =>
      let r := fn ()
      (r, memoStore cache key ⟨now, r⟩)

lemma memoLookup_memoStore {α : Type} (cache : MemoCache α) (key : String)
    (e : CacheEntry α) : memoLookup (memoStore cache key e) key = some e := by
  simp [memoLookup, memoStore, List.find?_cons]

/-- C5: the memoizing lookup of utils.memoize returns the stored value
unchanged when now minus the stored write tick is strictly below the ttl,
and otherwise invokes the compute function, stores its result with the
current tick as write tick, and returns that result; in particular a
lookup immediately following a store within the ttl window returns the
exact stored value without recomputing. -/
theorem memoize_contract {α : Type} (cache : MemoCache α) (now : Nat)
    (key : String) (fn : Unit → α) (ttl : ℤ) (e : CacheEntry α)
    (hhit : memoLookup cache key = some e)
    (hfresh : (now : ℤ) - (e.time : ℤ) < ttl) :
    memoize cache now key fn ttl = (e.result, cache) ∧
      (∀ (cache2 : MemoCache α) (now2 : Nat) (fn2 : Unit → α) (ttl2 : ℤ),
        memoLookup cache2 key = none ∨
          (∃ e2, memoLookup cache2 key = some e2 ∧
            ¬ (now2 : ℤ) - (e2.time : ℤ) < ttl2) →
        memoize cache2 now2 key fn2 ttl2 =
          (fn2 (), memoStore cache2 key ⟨now2, fn2 ()⟩)) ∧
      (∀ (cache2 : MemoCache α) (now2 : Nat) (fn2 : Unit → α) (ttl2 : ℤ)
          (now3 : Nat) (fn3 : Unit → α) (ttl3 : ℤ),
        memoLookup cache2 key = none →
        (now3 : ℤ) - (now2 : ℤ) < ttl3 →
        memoize (memoize cache2 now2 key fn2 ttl2).2 now3 key fn3 ttl3 =
          (fn2 (), (memoize cache2 now2 key fn2 ttl2).2)) := by
  refine ⟨?_, ?_, ?_⟩
  · simp [memoize, hhit, hfresh]
  · rintro cache2 now2 fn2 ttl2 (hmiss | ⟨e2, hstale, hstale2⟩)
    · simp [memoize, hmiss]
    · simp [memoize, hstale, hstale2]
  · intro cache2 now2 fn2 ttl2 now3 fn3 ttl3 hmiss hwin
    have hstore : (memoize cache2 now2 key fn2 ttl2).2 =
        memoStore cache2 key ⟨now2, fn2 ()⟩ := by
      simp [memoize, hmiss]
    rw [hstore]
    simp [memoize, memoLookup_memoStore, hwin]

/-- C5 witness: the contract applied at a concrete singleton cache holding
value 7 written at tick 5, read at tick 9 with ttl 10. -/
theorem memoize_contract_witness :
    memoize [("k", ⟨5, 7⟩)] 9 "k" (fun _ => 42) 10 = (7, [("k", ⟨5, 7⟩)]) ∧
      (∀ (cache2 : MemoCache Nat) (now2 : Nat) (fn2 : Unit → Nat) (ttl2 : ℤ),
        memoLookup cache2 "k" = none ∨
          (∃ e2, memoLookup cache2 "k" = some e2 ∧
            ¬ (now2 : ℤ) - (e2.time : ℤ) < ttl2) →
        memoize cache2 now2 "k" fn2 ttl2 =
          (fn2 (), memoStore cache2 "k" ⟨now2, fn2 ()⟩)) ∧
      (∀ (cache2 : MemoCache Nat) (now2 : Nat) (fn2 : Unit → Nat) (ttl2 : ℤ)
          (now3 : Nat) (fn3 : Unit → Nat) (ttl3 : ℤ),
        memoLookup cache2 "k" = none →
        (now3 : ℤ) - (now2 : ℤ) < ttl3 →
        memoize (memoize cache2 now2 "k" fn2 ttl2).2 now3 "k" fn3 ttl3 =
          (fn2 (), (memoize cache2 now2 "k" fn2 ttl2).2)) :=
  memoize_contract [("k", ⟨5, 7⟩)] 9 "k" (fun _ => 42) 10 ⟨5, 7⟩
    (by simp [memoLookup]) (by decide)

/-- An entry of room.memory.energyRequests, created by
roleBuilder.registerEnergyRequest (src/Build1/role.builder.js lines
422-455): the key of the entry equals this id field, which is the
requesting builders game id. -/
structure EnergyRequest where
  id : String
  priority : ℚ
  timestamp : Nat
  waitStartTime : Option Nat
  assignedHaulerId : Option String
deriving DecidableEq, Repr

/-- The effective wait start used by the hauler scoring expression
waitStartTime-or-timestamp (src/Build1/role.hauler.js line 128), with the
JavaScript falsy test on the number rendered as a test against zero. -/
def effWaitStart (r : EnergyRequest) : Nat :=
  match r.waitStartTime with
  | some w => if w = 0 then r.timestamp else w
  | none => r.timestamp

/-- Translation of the score of src/Build1/role.hauler.js lines 126-133:
waitTime is the current tick minus the effective wait start, waitFactor is
max(0, 20 - waitTime) * 2, and the score is priority plus half the range
minus waitFactor.  Lower scores win. -/
def requestScore (now : Nat) (dist : Nat) (r : EnergyRequest) : ℚ :=
  let waitTime : ℤ := (now : ℤ) - (effWaitStart r : ℤ)
  let waitFactor : ℚ := ((max 0 (20 - waitTime) : ℤ) : ℚ) * 2
  r.priority + (dist : ℚ) * (1/2) - waitFactor

/-- The skip test of src/Build1/role.hauler.js line 114: a request is
skipped when its assignedHaulerId is set and names a different hauler. -/
def skipReq (h : String) (r : EnergyRequest) : Bool :=
  match r.assignedHaulerId with
  | some a => ¬ a = h
  | none => false

/-- One iteration of the request scan of src/Build1/role.hauler.js lines
110-139 on the accumulator of surviving requests and current best: a
request assigned to another hauler is kept and not scored; a request whose
builder no longer resolves (the range oracle returns none) is deleted from
the registry; otherwise the request is scored and replaces the best on a
strictly lower score. -/
def scanStep (h : String) (now : Nat) (dist : String → Option Nat)
    (acc : List EnergyRequest × Option (EnergyRequest × ℚ))
    (r : EnergyRequest) : List EnergyRequest × Option (EnergyRequest × ℚ) :=
  if skipReq h r then (acc.1 ++ [r], acc.2)
  else
    match dist r.id with
    | none => (acc.1, acc.2)
    | some d =>
        match acc.2 with
        | none => (acc.1 ++ [r], some (r, requestScore now d r))
        | some (br, bs) =>
            if requestScore now d r < bs then
              (acc.1 ++ [r], some (r, requestScore now d r))
            else (acc.1 ++ [r], some (br, bs))

/-- The full request scan of src/Build1/role.hauler.js lines 110-139 over
the registry in key order, returning the surviving registry and the best
request with its score. -/
def scanRequests (h : String) (now : Nat) (dist : String → Option Nat)
    (reqs : List EnergyRequest) :
    List EnergyRequest × Option (EnergyRequest × ℚ) :=
  reqs.foldl (scanStep h now dist) ([], none)

/-- Hauler creep memory fields touched by the request market
(src/Build1/role.hauler.js). -/
structure HaulerMemory where
  assignedRequestId : Option String
  targetId : Option String
deriving DecidableEq, Repr

/-- The request-market part of roleHauler.findDeliveryTarget
(src/Build1/role.hauler.js lines 105-148): scan the registry, and when a
best request was found, record the hauler on it and the request on the
hauler. -/
def findDeliveryTargetMarket (h : String) (now : Nat)
    (dist : String → Option Nat) (reqs : List EnergyRequest)
    (mem : HaulerMemory) :
    List EnergyRequest × HaulerMemory :=
  match (scanRequests h now dist reqs).2 with
  | none => ((scanRequests h now dist reqs).1, mem)
  | some (b, _) =>
      ((scanRequests h now dist reqs).1.map (fun r =>
          if r.id = b.id then { r with assignedHaulerId := some h } else r),
        { mem with assignedRequestId := some b.id, targetId := some b.id })

/-- Translation of roleHauler.clearBuilderAssignment
(src/Build1/role.hauler.js lines 66-79): when the hauler has an assigned
request and that request still records this hauler, the requests
assignedHaulerId is deleted; the haulers assignedRequestId is deleted in
every case. -/
def clearBuilderAssignment (hid : String) (mem : HaulerMemory)
    (reqs : List EnergyRequest) : HaulerMemory × List EnergyRequest :=
  let reqs2 :=
    match mem.assignedRequestId with
    | some rid =>
        reqs.map (fun r =>
          if r.id = rid ∧ r.assignedHaulerId = some hid then
            { r with assignedHaulerId := none }
          else r)
    | none => reqs
  ({ mem with assignedRequestId := none }, reqs2)

/-- The spec scenario inputs for the wait-bonus claim: a request of
priority 50 created at tick 1000, and a request of priority 20 created at
tick 1049, both unassigned. -/
def agedRequest : EnergyRequest :=
  { id := "builderOld", priority := 50, timestamp := 1000
    waitStartTime := some 1000, assignedHaulerId := none }

/-- The fresh low-priority competitor of the wait-bonus scenario. -/
def freshRequest : EnergyRequest :=
  { id := "builderNew", priority := 20, timestamp := 1049
    waitStartTime := some 1049, assignedHaulerId := none }

/-- C1: evaluation of the scoring code at the failing input of the claim.
At tick 1050 with both builders at range 10, the aged priority-50 request
scores 55 while the fresh priority-20 request scores -13, because the
codes waitFactor max(0, 20 - waitTime) * 2 shrinks as a request ages
instead of growing; the scan therefore selects the fresh request, against
the claims statement (and against the codes own comment that a longer
wait means a lower score). -/
theorem agedRequest_loses :
    requestScore 1050 10 agedRequest = 55 ∧
      requestScore 1050 10 freshRequest = -13 ∧
      (scanRequests "haulerA" 1050 (fun _ => some 10)
          [agedRequest, freshRequest]).2.map (fun p => p.1.id) =
        some "builderNew" := by
  refine ⟨?_, ?_, ?_⟩ <;>
    norm_num [requestScore, effWaitStart, agedRequest, freshRequest,
      scanRequests, scanStep, skipReq]

lemma scanStep_fst_sub (h : String) (now : Nat) (dist : String → Option Nat)
    (acc : List EnergyRequest × Option (EnergyRequest × ℚ))
    (r : EnergyRequest) :
    ∀ r2 ∈ (scanStep h now dist acc r).1, r2 ∈ acc.1 ∨ r2 = r := by
  intro r2 hr2
  unfold scanStep at hr2
  split at hr2
  · simpa using hr2
  · split at hr2
    · exact Or.inl hr2
    · split at hr2
      · simpa using hr2
      · split at hr2 <;> simpa using hr2

lemma scanStep_fst_mono (h : String) (now : Nat) (dist : String → Option Nat)
    (acc : List EnergyRequest × Option (EnergyRequest × ℚ))
    (r : EnergyRequest) : acc.1 ⊆ (scanStep h now dist acc r).1 := by
  unfold scanStep
  split
  · exact List.subset_append_left _ _
  · split
    · exact List.Subset.refl _
    · split
      · exact List.subset_append_left _ _
      · split <;> exact List.subset_append_left _ _

lemma scanStep_snd_cases (h : String) (now : Nat) (dist : String → Option Nat)
    (acc : List EnergyRequest × Option (EnergyRequest × ℚ))
    (r : EnergyRequest) (b : EnergyRequest) (s : ℚ) :
    (scanStep h now dist acc r).2 = some (b, s) →
    acc.2 = some (b, s) ∨ (b = r ∧ skipReq h r = false) := by
  intro h2
  unfold scanStep at h2
  by_cases hs : skipReq h r = true
  · rw [if_pos hs] at h2
    exact Or.inl h2
  · rw [if_neg hs] at h2
    rw [Bool.not_eq_true] at hs
    cases hd : dist r.id with
    | none =>
        rw [hd] at h2
        exact Or.inl h2
    | some d =>
        rw [hd] at h2
        cases hacc : acc.2 with
        | none =>
            rw [hacc] at h2
            simp only [Option.some.injEq, Prod.mk.injEq] at h2
            exact Or.inr ⟨h2.1.symm, hs⟩
        | some p =>
            obtain ⟨br, bs⟩ := p
            rw [hacc] at h2
            dsimp only at h2
            by_cases hlt : requestScore now d r < bs
            · rw [if_pos hlt] at h2
              simp only [Option.some.injEq, Prod.mk.injEq] at h2
              exact Or.inr ⟨h2.1.symm, hs⟩
            · rw [if_neg hlt] at h2
              simp only [Option.some.injEq, Prod.mk.injEq] at h2
              exact Or.inl (by simp [h2.1, h2.2])

lemma scanFold_fst_mono (h : String) (now : Nat) (dist : String → Option Nat) :
    ∀ (reqs : List EnergyRequest) acc,
      acc.1 ⊆ (List.foldl (scanStep h now dist) acc reqs).1 := by
  intro reqs
  induction reqs with
  | nil => intro acc; simp
  | cons r rs ih =>
      intro acc
      rw [List.foldl_cons]
      exact fun x hx =>
        ih (scanStep h now dist acc r)
          (scanStep_fst_mono h now dist acc r hx)

lemma scanFold_fst_mem (h : String) (now : Nat) (dist : String → Option Nat) :
    ∀ (reqs : List EnergyRequest) acc,
      ∀ r2 ∈ (List.foldl (scanStep h now dist) acc reqs).1,
        r2 ∈ acc.1 ∨ r2 ∈ reqs := by
  intro reqs
  induction reqs with
  | nil => intro acc r2 hr2; simp at hr2; exact Or.inl hr2
  | cons r rs ih =>
      intro acc r2 hr2
      rw [List.foldl_cons] at hr2
      rcases ih _ r2 hr2 with hmem | hmem
      · rcases scanStep_fst_sub h now dist acc r r2 hmem with h1 | h1
        · exact Or.inl h1
        · right; simp [h1]
      · right; exact List.mem_cons_of_mem _ hmem

lemma scanFold_keeps_skipped (h : String) (now : Nat)
    (dist : String → Option Nat) :
    ∀ (reqs : List EnergyRequest) acc r, r ∈ reqs → skipReq h r = true →
      r ∈ (List.foldl (scanStep h now dist) acc reqs).1 := by
  intro reqs
  induction reqs with
  | nil => intro acc r hr; simp at hr
  | cons q qs ih =>
      intro acc r hr hskip
      rw [List.foldl_cons]
      rcases List.mem_cons.mp hr with rfl | hmem
      · refine scanFold_fst_mono h now dist qs (scanStep h now dist acc r) ?_
        unfold scanStep
        rw [if_pos hskip]
        simp
      · exact ih _ r hmem hskip

lemma scanFold_snd_cases (h : String) (now : Nat)
    (dist : String → Option Nat) :
    ∀ (reqs : List EnergyRequest) acc b s,
      (List.foldl (scanStep h now dist) acc reqs).2 = some (b, s) →
      acc.2 = some (b, s) ∨ (b ∈ reqs ∧ skipReq h b = false) := by
  intro reqs
  induction reqs with
  | nil => intro acc b s hb; exact Or.inl hb
  | cons q qs ih =>
      intro acc b s hb
      rw [List.foldl_cons] at hb
      rcases ih _ b s hb with hstep | ⟨hmem, hskip⟩
      · rcases scanStep_snd_cases h now dist acc q b s hstep with h1 | ⟨rfl, hsk⟩
        · exact Or.inl h1
        · exact Or.inr ⟨List.mem_cons_self _ _, hsk⟩
      · exact Or.inr ⟨List.mem_cons_of_mem _ hmem, hskip⟩

/-- C4: assignment discipline of the request market.  After the matcher
runs, every assignedHaulerId on the registry either names the running
hauler or was already present: the matcher skips requests whose
assignedHaulerId names a different hauler, and such a request survives the
scan completely untouched.  Clearing an assignment removes both directions
of the link: the haulers assignedRequestId is deleted, and the request the
hauler referenced no longer names the hauler. -/
theorem single_assignment_discipline (h : String) (now : Nat)
    (dist : String → Option Nat) (reqs : List EnergyRequest)
    (mem : HaulerMemory)
    (hnodup : (reqs.map EnergyRequest.id).Nodup) :
    (∀ r2 ∈ (findDeliveryTargetMarket h now dist reqs mem).1, ∀ a,
        r2.assignedHaulerId = some a →
        a = h ∨ ∃ r ∈ reqs, r.id = r2.id ∧ r.assignedHaulerId = some a) ∧
      (∀ r ∈ reqs, ∀ a, ¬ a = h → r.assignedHaulerId = some a →
        r ∈ (findDeliveryTargetMarket h now dist reqs mem).1) ∧
      (clearBuilderAssignment h mem reqs).1.assignedRequestId = none ∧
      (∀ r2 ∈ (clearBuilderAssignment h mem reqs).2,
        mem.assignedRequestId = some r2.id →
        ¬ r2.assignedHaulerId = some h) := by
  have hkept : ∀ r2 ∈ (scanRequests h now dist reqs).1, r2 ∈ reqs := by
    intro r2 hr2
    rcases scanFold_fst_mem h now dist reqs ([], none) r2 hr2 with h1 | h1
    · simp at h1
    · exact h1
  refine ⟨?_, ?_, ?_, ?_⟩
  · intro r2 hr2 a ha
    unfold findDeliveryTargetMarket at hr2
    cases hbest : (scanRequests h now dist reqs).2 with
    | none =>
        rw [hbest] at hr2
        simp only at hr2
        exact Or.inr ⟨r2, hkept r2 hr2, rfl, ha⟩
    | some p =>
        obtain ⟨b, s⟩ := p
        rw [hbest] at hr2
        simp only at hr2
        rcases List.mem_map.mp hr2 with ⟨r, hrk, hreq⟩
        by_cases hid : r.id = b.id
        · rw [if_pos hid] at hreq
          rw [← hreq] at ha
          simp at ha
          exact Or.inl ha.symm
        · rw [if_neg hid] at hreq
          subst hreq
          exact Or.inr ⟨r, hkept r hrk, rfl, ha⟩
  · intro r hr a hne ha
    have hskip : skipReq h r = true := by
      simp [skipReq, ha, hne]
    have hinkept : r ∈ (scanRequests h now dist reqs).1 :=
      scanFold_keeps_skipped h now dist reqs ([], none) r hr hskip
    unfold findDeliveryTargetMarket
    cases hbest : (scanRequests h now dist reqs).2 with
    | none => simpa using hinkept
    | some p =>
        obtain ⟨b, s⟩ := p
        simp only
        have hb : b ∈ reqs ∧ skipReq h b = false := by
          rcases scanFold_snd_cases h now dist reqs ([], none) b s hbest
            with h1 | h1
          · simp at h1
          · exact h1
        have hid : ¬ r.id = b.id := by
          intro hideq
          have := List.inj_on_of_nodup_map hnodup hr hb.1 hideq
          rw [this] at hskip
          rw [hb.2] at hskip
          exact Bool.false_ne_true hskip
        have : (fun r0 =>
            if r0.id = b.id then { r0 with assignedHaulerId := some h }
            else r0) r = r := by
          simp [hid]
        exact this ▸ List.mem_map_of_mem _ hinkept
  · rfl
  · intro r2 hr2 hmemid
    unfold clearBuilderAssignment at hr2
    cases hm : mem.assignedRequestId with
    | none => rw [hm] at hmemid; exact absurd hmemid (by simp)
    | some rid =>
        rw [hm] at hr2
        simp only at hr2
        rw [hm] at hmemid
        have hrid : rid = r2.id := by
          simpa using hmemid
        rcases List.mem_map.mp hr2 with ⟨r, hrk, hreq⟩
        by_cases hcond : r.id = rid ∧ r.assignedHaulerId = some h
        · rw [if_pos hcond] at hreq
          rw [← hreq]
          simp
        · rw [if_neg hcond] at hreq
          subst hreq
          intro hassigned
          exact hcond ⟨hrid.symm, hassigned⟩

/-- C4 witness: the discipline theorem applied to a concrete two-entry
registry in which the first request is already assigned to another
hauler. -/
theorem single_assignment_discipline_witness :
    (∀ r2 ∈ (findDeliveryTargetMarket "me" 12 (fun _ => some 3)
        [⟨"b1", 50, 10, some 10, some "other"⟩,
         ⟨"b2", 30, 10, some 10, none⟩] ⟨none, none⟩).1, ∀ a,
        r2.assignedHaulerId = some a →
        a = "me" ∨ ∃ r ∈ [⟨"b1", 50, 10, some 10, some "other"⟩,
          (⟨"b2", 30, 10, some 10, none⟩ : EnergyRequest)],
          r.id = r2.id ∧ r.assignedHaulerId = some a) ∧
      (∀ r ∈ [⟨"b1", 50, 10, some 10, some "other"⟩,
          (⟨"b2", 30, 10, some 10, none⟩ : EnergyRequest)], ∀ a,
        ¬ a = "me" → r.assignedHaulerId = some a →
        r ∈ (findDeliveryTargetMarket "me" 12 (fun _ => some 3)
          [⟨"b1", 50, 10, some 10, some "other"⟩,
           ⟨"b2", 30, 10, some 10, none⟩] ⟨none, none⟩).1) ∧
      (clearBuilderAssignment "me" ⟨none, none⟩
        [⟨"b1", 50, 10, some 10, some "other"⟩,
         ⟨"b2", 30, 10, some 10, none⟩]).1.assignedRequestId = none ∧
      (∀ r2 ∈ (clearBuilderAssignment "me" ⟨none, none⟩
          [⟨"b1", 50, 10, some 10, some "other"⟩,
           ⟨"b2", 30, 10, some 10, none⟩]).2,
        (none : Option String) = some r2.id →
        ¬ r2.assignedHaulerId = some "me") :=
  single_assignment_discipline "me" 12 (fun _ => some 3)
    [⟨"b1", 50, 10, some 10, some "other"⟩,
     ⟨"b2", 30, 10, some 10, none⟩] ⟨none, none⟩ (by decide)

/-- Translation of roomManager.cleanupEnergyRequests (src/unnamed/part_004
lines 370-411) acting on one registry entry.  The requesterFree oracle
returns none when the requesting creep no longer resolves and otherwise
its free energy capacity; the haulerRef oracle returns none when the
assigned hauler no longer resolves and otherwise the haulers
assignedRequestId memory field.  A none result means the entry lands in
requestsToDelete and is removed after the loop; otherwise the entry
survives, with its assignedHaulerId deleted when the cross-check fails.
The staleness test carries the JavaScript truthy guard on the
timestamp. -/
def cleanupRequest (now : ℤ) (requesterFree : String → Option Nat)
    (haulerRef : String → Option (Option String)) (r : EnergyRequest) :
    Option EnergyRequest :=
  if ¬ r.timestamp = 0 ∧ now - (r.timestamp : ℤ) > 50 then none
  else
    match requesterFree r.id with
    | none => none
    | some free =>
        if free = 0 then none
        else
          match r.assignedHaulerId with
          | some hid =>
              match haulerRef hid with
              | none => some { r with assignedHaulerId := none }
              | some assigned =>
                  if ¬ assigned = some r.id then
                    some { r with assignedHaulerId := none }
                  else some r
          | none => some r

/-- The whole cleanup pass over the registry in key order. -/
def cleanupEnergyRequests (now : ℤ) (requesterFree : String → Option Nat)
    (haulerRef : String → Option (Option String))
    (reqs : List EnergyRequest) : List EnergyRequest :=
  reqs.filterMap (cleanupRequest now requesterFree haulerRef)

/-- Translation of the full-update interval selection of
roomManager.updateRoomData (src/unnamed/part_004 lines 27-35): 100 under
critical emergency, 50 under any other emergency, 40 on a bucket below
3000, else 20. -/
def fullUpdateInterval (em : Option EmergencyLevel) (bucket : Nat) : Nat :=
  match em with
  | some l => if l = EmergencyLevel.critical then 100 else 50
  | none => if bucket < 3000 then 40 else 20

/-- Whether updateRoomData reaches performFullUpdate, and with it the
cleanup pass, on a given tick (src/unnamed/part_004 lines 37 and 58):
the tick distance from the last full update must reach the interval and
the medium-priority gate must allow the work. -/
def runsCleanup (now lastUpdate : Nat) (isSimulation : Bool)
    (em : Option EmergencyLevel) (bucket : Nat) : Bool :=
  decide ((fullUpdateInterval em bucket : ℤ) ≤ (now : ℤ) - (lastUpdate : ℤ))
    && shouldExecute Tier.medium isSimulation em bucket

/-- C6 counterexample: the cleanup pass is not run each cycle.  At tick 10
with the last full update at tick 0, no emergency, a full bucket and no
simulation bypass, updateRoomData does not reach the cleanup pass, because
only 10 of the 20 interval ticks have elapsed. -/
theorem cleanup_not_every_cycle :
    runsCleanup 10 0 false none 10000 = false := by decide

/-- C6 amended: the cleanup pass, which runs only when a full room update
is due and the medium gate allows it, removes a request exactly when its
requester no longer exists, or the requesters free energy capacity is
zero, or its age exceeds 50 ticks; and a surviving request whose assigned
fulfiller no longer exists or no longer references it has its
assignedHaulerId cleared, the pass acting entrywise on the registry. -/
theorem cleanup_conditions (now : ℤ) (requesterFree : String → Option Nat)
    (haulerRef : String → Option (Option String)) (r : EnergyRequest)
    (hts : ¬ r.timestamp = 0) :
    (cleanupRequest now requesterFree haulerRef r = none ↔
      (requesterFree r.id = none ∨ requesterFree r.id = some 0 ∨
        now - (r.timestamp : ℤ) > 50)) ∧
      (∀ hid, r.assignedHaulerId = some hid →
        (haulerRef hid = none ∨
          (∃ asgn, haulerRef hid = some asgn ∧ ¬ asgn = some r.id)) →
        cleanupRequest now requesterFree haulerRef r = none ∨
        cleanupRequest now requesterFree haulerRef r =
          some { r with assignedHaulerId := none }) ∧
      (∀ (reqs : List EnergyRequest) r2,
        r2 ∈ cleanupEnergyRequests now requesterFree haulerRef reqs ↔
        ∃ r0 ∈ reqs, cleanupRequest now requesterFree haulerRef r0 = some r2) := by
  refine ⟨?_, ?_, ?_⟩
  · unfold cleanupRequest
    by_cases hstale : ¬ r.timestamp = 0 ∧ now - (r.timestamp : ℤ) > 50
    · rw [if_pos hstale]
      simp [hstale.2]
    · rw [if_neg hstale]
      have hnotold : ¬ now - (r.timestamp : ℤ) > 50 := by
        intro hgt
        exact hstale ⟨hts, hgt⟩
      cases hfree : requesterFree r.id with
      | none => simp [hnotold]
      | some free =>
          dsimp only
          by_cases hzero : free = 0
          · rw [if_pos hzero]
            simp [hzero, hnotold]
          · rw [if_neg hzero]
            cases hh : r.assignedHaulerId with
            | none => simp [hnotold, hzero]
            | some hid =>
                dsimp only
                cases href : haulerRef hid with
                | none => simp [href, hnotold, hzero]
                | some assigned =>
                    dsimp only
                    by_cases hne : ¬ assigned = some r.id
                    · rw [if_pos hne]
                      simp [hnotold, hzero]
                    · rw [if_neg hne]
                      simp [hnotold, hzero]
  · intro hid hhid hbad
    unfold cleanupRequest
    by_cases hstale : ¬ r.timestamp = 0 ∧ now - (r.timestamp : ℤ) > 50
    · rw [if_pos hstale]
      exact Or.inl rfl
    · rw [if_neg hstale]
      cases hfree : requesterFree r.id with
      | none => exact Or.inl rfl
      | some free =>
          dsimp only
          by_cases hzero : free = 0
          · rw [if_pos hzero]
            exact Or.inl rfl
          · rw [if_neg hzero]
            rw [hhid]
            dsimp only
            rcases hbad with hbad | ⟨asgn, hasgn, hne⟩
            · rw [hbad]
              exact Or.inr rfl
            · rw [hasgn]
              dsimp only
              rw [if_pos hne]
              exact Or.inr rfl
  · intro reqs r2
    unfold cleanupEnergyRequests
    constructor
    · intro hmem
      rcases List.mem_filterMap.mp hmem with ⟨r0, hr0, hr0eq⟩
      exact ⟨r0, hr0, hr0eq⟩
    · rintro ⟨r0, hr0, hr0eq⟩
      exact List.mem_filterMap.mpr ⟨r0, hr0, hr0eq⟩

/-- C6 witness: the amended conditions applied to a concrete request of
age 60 whose requester still exists with free capacity, so that exactly
the staleness disjunct fires. -/
theorem cleanup_conditions_witness :
    (cleanupRequest 1060 (fun _ => some 50) (fun _ => none)
        ⟨"b1", 50, 1000, some 1000, none⟩ = none ↔
      ((fun _ => some 50 : String → Option Nat) "b1" = none ∨
        (fun _ => some 50 : String → Option Nat) "b1" = some 0 ∨
        (1060 : ℤ) - ((1000 : Nat) : ℤ) > 50)) ∧
      (∀ hid, (⟨"b1", 50, 1000, some 1000, none⟩ :
          EnergyRequest).assignedHaulerId = some hid →
        ((fun _ => none : String → Option (Option String)) hid = none ∨
          (∃ asgn, (fun _ => none : String → Option (Option String)) hid =
            some asgn ∧ ¬ asgn = some (⟨"b1", 50, 1000, some 1000, none⟩ :
              EnergyRequest).id)) →
        cleanupRequest 1060 (fun _ => some 50) (fun _ => none)
          ⟨"b1", 50, 1000, some 1000, none⟩ = none ∨
        cleanupRequest 1060 (fun _ => some 50) (fun _ => none)
          ⟨"b1", 50, 1000, some 1000, none⟩ =
          some { (⟨"b1", 50, 1000, some 1000, none⟩ : EnergyRequest) with
            assignedHaulerId := none }) ∧
      (∀ (reqs : List EnergyRequest) r2,
        r2 ∈ cleanupEnergyRequests 1060 (fun _ => some 50) (fun _ => none)
          reqs ↔
        ∃ r0 ∈ reqs, cleanupRequest 1060 (fun _ => some 50) (fun _ => none)
          r0 = some r2) :=
  cleanup_conditions 1060 (fun _ => some 50) (fun _ => none)
    ⟨"b1", 50, 1000, some 1000, none⟩ (by decide)

/-- Outcome of one iteration of the per-creep dispatch loop of
processCreepRole (src/Build1/main.js lines 403-414): whether the role step
threw, and whether the catch branch issued the fallback move toward the
spawn. -/
structure CreepOutcome where
  name : String
  errored : Bool
  movedToSpawn : Bool
deriving DecidableEq, Repr

/-- Translation of one iteration of the creep loop: the role step runs
inside a try-catch; on an exception the error is written to the console
log and the fallback move to the first spawn is attempted only when the
tick is divisible by ten and a spawn exists. -/
def handleCreep (step : String → Except String Unit) (time : Nat)
    (hasSpawn : Bool) (c : String) : CreepOutcome :=
  match step c with
  | Except.ok _ => ⟨c, false, false⟩
  | Except.error _ => ⟨c, true, decide (time % 10 = 0) && hasSpawn⟩

/-- The whole per-creep loop of processCreepRole with its per-iteration
try-catch: every creep of the group is processed whatever the earlier
iterations threw. -/
def processCreeps (step : String → Except String Unit) (time : Nat)
    (hasSpawn : Bool) (creeps : List String) : List CreepOutcome :=
  creeps.map (handleCreep step time hasSpawn)

/-- The same loop without the try-catch, for comparison: the first
exception aborts the remaining iterations. -/
def processCreepsUncaught (step : String → Except String Unit) :
    List String → Except String (List String)
  | [] => Except.ok []
  | c :: cs =>
      match step c with
      | Except.ok _ => (processCreepsUncaught step cs).map (fun l => c :: l)
      | Except.error e => Except.error e

/-- An entry of the global.errors buffer filled by utils.wrapModule
(src/Build1/utils.js lines 317-325). -/
structure ErrorRecord where
  time : Nat
  message : String
deriving DecidableEq, Repr

/-- Translation of the global.errors push of utils.wrapModule: append the
record, then shift the oldest entry off when more than ten are held. -/
def pushErrorBounded (errors : List ErrorRecord) (e : ErrorRecord) :
    List ErrorRecord :=
  let es := errors ++ [e]
  if 10 < es.length then es.drop 1 else es

/-- C7 counterexample: at tick 1, a convention tick not divisible by ten,
a faulting creep is caught but performs no fallback move toward the spawn
even though a spawn exists, against the claims statement that the faulting
creep performs the fallback move for the remainder of that cycle. -/
theorem faultingCreep_no_fallback_off_tick :
    processCreeps (fun _ => Except.error "boom") 1 true ["alpha"] =
        [⟨"alpha", true, false⟩] ∧
      ¬ (processCreeps (fun _ => Except.error "boom") 1 true
          ["alpha"]).all (fun o => !o.errored || o.movedToSpawn) = true := by
  decide

/-- C7 amended: an exception inside one creeps role step does not
propagate past the per-creep dispatch loop: every creep of the group is
processed and yields its own outcome, whereas the same loop without the
per-iteration catch aborts at the first faulting creep.  The catch writes
the error to the console log, and performs the fallback move toward the
spawn only on ticks divisible by ten when a spawn exists; the bounded
ring buffer of the last ten errors belongs to the module wrapper
utils.wrapModule and keeps at most ten records. -/
theorem creepLoop_error_containment (step : String → Except String Unit)
    (time : Nat) (hasSpawn : Bool) (creeps : List String)
    (errors : List ErrorRecord) (e : ErrorRecord)
    (hlen : errors.length ≤ 10) :
    (processCreeps step time hasSpawn creeps).length = creeps.length ∧
      (∀ c ∈ creeps,
        handleCreep step time hasSpawn c ∈
          processCreeps step time hasSpawn creeps) ∧
      (∀ c msg, step c = Except.error msg →
        (handleCreep step time hasSpawn c).errored = true ∧
        (handleCreep step time hasSpawn c).movedToSpawn =
          (decide (time % 10 = 0) && hasSpawn)) ∧
      ((∃ c ∈ creeps, ∃ msg, step c = Except.error msg) →
        ∃ msg, processCreepsUncaught step creeps = Except.error msg) ∧
      (pushErrorBounded errors e).length ≤ 10 := by
  refine ⟨?_, ?_, ?_, ?_, ?_⟩
  · exact List.length_map _ _
  · intro c hc
    exact List.mem_map_of_mem _ hc
  · intro c msg hc
    unfold handleCreep
    rw [hc]
    exact ⟨rfl, rfl⟩
  · intro hex
    induction creeps with
    | nil => simp at hex
    | cons c cs ih =>
        unfold processCreepsUncaught
        cases hstep : step c with
        | error msg => exact ⟨msg, rfl⟩
        | ok u =>
            rcases hex with ⟨c2, hc2, msg, hmsg⟩
            rcases List.mem_cons.mp hc2 with rfl | hmem
            · rw [hstep] at hmsg
              exact absurd hmsg (by simp)
            · rcases ih ⟨c2, hmem, msg, hmsg⟩ with ⟨msg2, hmsg2⟩
              refine ⟨msg2, ?_⟩
              rw [hmsg2]
              rfl
  · unfold pushErrorBounded
    by_cases hlong : 10 < (errors ++ [e]).length
    · rw [if_pos hlong]
      simp
      omega
    · rw [if_neg hlong]
      simp at hlong ⊢
      omega

/-- C7 witness: the containment theorem applied to a concrete two-creep
group whose first creep faults at tick 1, with a full error buffer. -/
theorem creepLoop_error_containment_witness :
    (processCreeps
        (fun c => if c = "alpha" then Except.error "boom" else Except.ok ())
        1 true ["alpha", "beta"]).length = (["alpha", "beta"]).length ∧
      (∀ c ∈ ["alpha", "beta"],
        handleCreep
          (fun c => if c = "alpha" then Except.error "boom" else Except.ok ())
          1 true c ∈
          processCreeps
            (fun c => if c = "alpha" then Except.error "boom"
              else Except.ok ()) 1 true ["alpha", "beta"]) ∧
      (∀ c msg,
        (fun c => if c = "alpha" then Except.error "boom" else Except.ok ())
            c = Except.error msg →
        (handleCreep
          (fun c => if c = "alpha" then Except.error "boom" else Except.ok ())
          1 true c).errored = true ∧
        (handleCreep
          (fun c => if c = "alpha" then Except.error "boom" else Except.ok ())
          1 true c).movedToSpawn = (decide ((1 : Nat) % 10 = 0) && true)) ∧
      ((∃ c ∈ ["alpha", "beta"], ∃ msg,
        (fun c => if c = "alpha" then Except.error "boom" else Except.ok ())
          c = Except.error msg) →
        ∃ msg, processCreepsUncaught
          (fun c => if c = "alpha" then Except.error "boom" else Except.ok ())
          ["alpha", "beta"] = Except.error msg) ∧
      (pushErrorBounded (List.replicate 10 ⟨0, "old"⟩) ⟨1, "new"⟩).length ≤
        10 :=
  creepLoop_error_containment
    (fun c => if c = "alpha" then Except.error "boom" else Except.ok ())
    1 true ["alpha", "beta"] (List.replicate 10 ⟨0, "old"⟩) ⟨1, "new"⟩
    (by decide)

/-- A slot store keyed by zone and field, rendered as an association list
with at most one slot per key, newest first.  It models both the in-cycle
roomManager.cache (the staging area) and the durable Memory.rooms
record. -/
abbrev SlotStore (V : Type) : Type :=
  List ((String × String) × V)

/-- A staged write: assigning a property of the per-room cache object
(for example cache of the room dot energyAvailable) replaces the single
slot held under that key. -/
def stage {V : Type} (buf : SlotStore V) (zone f : String) (v : V) :
    SlotStore V :=
  ((zone, f), v) :: buf.filter (fun p => ¬ p.1 = (zone, f))

/-- Reading a slot. -/
def lookupSlot {V : Type} (store : SlotStore V) (k : String × String) :
    Option V :=
  ((store.find? (fun p => p.1 = k)).map (fun p => p.2))

/-- One durable write performed by roomManager.updateMemory: assign the
field of the per-room memory record. -/
def writeSlot {V : Type} (durable : SlotStore V) (k : String × String)
    (v : V) : SlotStore V :=
  (k, v) :: durable.filter (fun p => ¬ p.1 = k)

/-- Translation of roomManager.updateMemory (src/unnamed/part_004 lines
99-141): every staged slot is copied into the durable store, one write
per slot, and the staged values themselves are the write log. -/
def flushBuffer {V : Type} (durable : SlotStore V) (buf : SlotStore V) :
    SlotStore V × List ((String × String) × V) :=
  (buf.foldl (fun d p => writeSlot d p.1 p.2) durable, buf)

/-- Scheduling state of the memoryUpdateScheduled flag of
roomManager.updateRoomData together with the count of updateMemory runs
this tick. -/
structure FlushSched where
  scheduled : Bool
  flushes : Nat
deriving DecidableEq, Repr

/-- Translation of the scheduling tail of roomManager.updateRoomData
(src/unnamed/part_004 lines 75-94): when the flag is clear it is set and
scheduleMemoryUpdate runs; with a post-tick callback available the flush
is deferred, otherwise updateMemory runs immediately and clears the flag
again at its end. -/
def processRoomSched (hasPostTick : Bool) (s : FlushSched) : FlushSched :=
  if s.scheduled then s
  else if hasPostTick then ⟨true, s.flushes⟩
  else ⟨false, s.flushes + 1⟩

/-- The registered post-tick callback firing after all logic of the tick:
it runs updateMemory once and clears the flag. -/
def endOfTickSched (hasPostTick : Bool) (s : FlushSched) : FlushSched :=
  if hasPostTick && s.scheduled then ⟨false, s.flushes + 1⟩ else s

/-- Calls of updateRoomData over the rooms of one tick, starting from a
clear flag. -/
def iterRooms (hasPostTick : Bool) : Nat → FlushSched
  | 0 => ⟨false, 0⟩
  | n + 1 => processRoomSched hasPostTick (iterRooms hasPostTick n)

/-- How many times updateMemory runs in a tick that processes the given
number of owned rooms. -/
def tickFlushes (hasPostTick : Bool) (nRooms : Nat) : Nat :=
  (endOfTickSched hasPostTick (iterRooms hasPostTick nRooms)).flushes

/-- C9 counterexample: when the host exposes no post-tick callback (the
fallback branch of scheduleMemoryUpdate), a tick that processes two owned
rooms runs updateMemory twice, inside updateRoomData and before the creep
logic, so the flush is neither unique per cycle nor after all agent
logic. -/
theorem flush_not_once_per_cycle :
    tickFlushes false 2 = 2 ∧ ¬ tickFlushes false 2 ≤ 1 := by decide

lemma iterRooms_true (n : Nat) :
    iterRooms true n = ⟨decide (0 < n), 0⟩ := by
  induction n with
  | zero => rfl
  | succ n ih =>
      rw [iterRooms, ih]
      cases hn : decide (0 < n) with
      | true => simp [processRoomSched]
      | false => simp [processRoomSched]

lemma iterRooms_false (n : Nat) :
    iterRooms false n = ⟨false, n⟩ := by
  induction n with
  | zero => rfl
  | succ n ih =>
      rw [iterRooms, ih]
      rfl

lemma lookupSlot_writeSlot_self {V : Type} (d : SlotStore V)
    (k : String × String) (v : V) : lookupSlot (writeSlot d k v) k = some v := by
  simp [lookupSlot, writeSlot, List.find?_cons]

lemma find_key_filter {V : Type} (d : SlotStore V) (k k2 : String × String)
    (hne : ¬ k2 = k) :
    (d.filter (fun p => ¬ p.1 = k2)).find? (fun p => p.1 = k) =
      d.find? (fun p => p.1 = k) := by
  induction d with
  | nil => rfl
  | cons p ps ih =>
      by_cases hp : p.1 = k2
      · rw [List.filter_cons_of_neg (by simp [hp])]
        rw [List.find?_cons_of_neg _ (by simp [hp, hne])]
        exact ih
      · rw [List.filter_cons_of_pos (by simp [hp])]
        by_cases hk : p.1 = k
        · rw [List.find?_cons_of_pos _ (by simp [hk]),
            List.find?_cons_of_pos _ (by simp [hk])]
        · rw [List.find?_cons_of_neg _ (by simp [hk]),
            List.find?_cons_of_neg _ (by simp [hk])]
          exact ih

lemma lookupSlot_writeSlot_other {V : Type} (d : SlotStore V)
    (k k2 : String × String) (v : V) (hne : ¬ k2 = k) :
    lookupSlot (writeSlot d k2 v) k = lookupSlot d k := by
  simp only [lookupSlot, writeSlot]
  rw [List.find?_cons_of_neg _ (by simp [hne])]
  rw [find_key_filter d k k2 hne]

lemma lookup_fold_untouched {V : Type} :
    ∀ (l : SlotStore V) (d : SlotStore V) (k : String × String),
      (∀ p ∈ l, ¬ p.1 = k) →
      lookupSlot (l.foldl (fun d p => writeSlot d p.1 p.2) d) k =
        lookupSlot d k := by
  intro l
  induction l with
  | nil => intro d k _; rfl
  | cons p ps ih =>
      intro d k h
      rw [List.foldl_cons]
      rw [ih _ k (fun q hq => h q (List.mem_cons_of_mem _ hq))]
      exact lookupSlot_writeSlot_other d k p.1 p.2
        (h p (List.mem_cons_self _ _))

/-- C9 amended: two stage calls for the same zone and field within one
cycle leave exactly one staged slot under that key, holding the later
value, so the flush performs exactly one durable write for that key, with
the later value, and the flushed durable store returns it; updateMemory
runs at most once per tick when the host offers a post-tick callback (and
then after all room processing), while under the immediate fallback it
runs once per processed room. -/
theorem flush_write_once (V : Type) (buf : SlotStore V)
    (durable : SlotStore V) (zone f : String) (v1 v2 : V) :
    ((flushBuffer durable (stage (stage buf zone f v1) zone f v2)).2.countP
        (fun p => p.1 = (zone, f))) = 1 ∧
      lookupSlot (flushBuffer durable
        (stage (stage buf zone f v1) zone f v2)).1 (zone, f) = some v2 ∧
      (∀ n, tickFlushes true n ≤ 1) ∧
      (∀ n, tickFlushes false n = n) := by
  refine ⟨?_, ?_, ?_, ?_⟩
  · show ((stage (stage buf zone f v1) zone f v2).countP
        (fun p => p.1 = (zone, f))) = 1
    have h0 : ((stage buf zone f v1).filter
        (fun p => ¬ p.1 = (zone, f))).countP
          (fun p => p.1 = (zone, f)) = 0 := by
      rw [List.countP_eq_zero]
      intro a ha
      have := (List.mem_filter.mp ha).2
      simpa using this
    rw [stage, List.countP_cons]
    rw [h0]
    simp
  · show lookupSlot ((stage (stage buf zone f v1) zone f
        v2).foldl (fun d p => writeSlot d p.1 p.2) durable) (zone, f) =
      some v2
    rw [stage, List.foldl_cons]
    rw [lookup_fold_untouched _ _ _
      (fun p hp => by simpa using (List.mem_filter.mp hp).2)]
    exact lookupSlot_writeSlot_self durable (zone, f) v2
  · intro n
    rw [tickFlushes, iterRooms_true]
    cases n <;> simp [endOfTickSched]
  · intro n
    rw [tickFlushes, iterRooms_false]
    simp [endOfTickSched]

/-- Per-source record of room.memory.sources created by
roomManager.performFullUpdate (src/unnamed/part_004 lines 183-187):
available mining spots, the assignment counter, and the keeper flag. -/
structure SourceMem where
  availableSpots : Nat
  assignedHarvesters : ℤ
  nearKeeper : Bool
deriving DecidableEq, Repr

/-- The room.memory.sources map in key order. -/
abbrev SourceTable : Type :=
  List (String × SourceMem)

/-- Translation of the selection loop of roomManager.getBestSource
(src/unnamed/part_004 lines 314-336): entries with no available spots
(the JavaScript falsy test), entries at or above capacity, and entries
near a source keeper are skipped; among the rest the strictly lowest
assigned-to-spots ratio wins, first entry on ties. -/
def pickLoop : SourceTable → Option (String × ℚ) → Option (String × ℚ)
  | [], best => best
  | (sid, sm) :: rest, best =>
      if sm.availableSpots = 0 then pickLoop rest best
      else if (sm.availableSpots : ℤ) ≤ sm.assignedHarvesters then
        pickLoop rest best
      else if sm.nearKeeper then pickLoop rest best
      else
        match best with
        | none =>
            pickLoop rest
              (some (sid, (sm.assignedHarvesters : ℚ) / (sm.availableSpots : ℚ)))
        | some (bid, br) =>
            if (sm.assignedHarvesters : ℚ) / (sm.availableSpots : ℚ) < br then
              pickLoop rest
                (some (sid,
                  (sm.assignedHarvesters : ℚ) / (sm.availableSpots : ℚ)))
            else pickLoop rest (some (bid, br))

/-- Translation of roomManager.getBestSource (src/unnamed/part_004 lines
308-351): pick the best source; when the picked id still resolves in the
world (the existence oracle), increment its counter and return it, and
when it does not, delete the entry. -/
def getBestSource (ex : String → Bool) (srcs : SourceTable) :
    SourceTable × Option String :=
  match pickLoop srcs none with
  | none => (srcs, none)
  | some (bid, _) =>
      if ex bid then
        (srcs.map (fun p =>
          if p.1 = bid then
            (p.1, { p.2 with assignedHarvesters := p.2.assignedHarvesters + 1 })
          else p), some bid)
      else (srcs.filter (fun p => ¬ p.1 = bid), none)

/-- Translation of roomManager.releaseSource (src/unnamed/part_004 lines
358-364): decrement the counter of the named source, clamped at zero. -/
def releaseSource (srcs : SourceTable) (sid : String) : SourceTable :=
  srcs.map (fun p =>
    if p.1 = sid then
      (p.1, { p.2 with
        assignedHarvesters := max 0 (p.2.assignedHarvesters - 1) })
    else p)

/-- An operation on the source table. -/
inductive SourceOp
  | acquire (ex : String → Bool)
  | release (sid : String)

/-- A sequence of getBestSource and releaseSource calls. -/
def runSourceOps (srcs : SourceTable) : List SourceOp → SourceTable
  | [] => srcs
  | SourceOp.acquire ex :: ops => runSourceOps (getBestSource ex srcs).1 ops
  | SourceOp.release sid :: ops => runSourceOps (releaseSource srcs sid) ops

/-- The counter of one entry lies in the interval from zero to the
available spots. -/
def goodSource (p : String × SourceMem) : Prop :=
  0 ≤ p.2.assignedHarvesters ∧
    p.2.assignedHarvesters ≤ (p.2.availableSpots : ℤ)

/-- The source-table invariant: distinct keys, and every counter within
bounds. -/
def SourceInv (srcs : SourceTable) : Prop :=
  (srcs.map Prod.fst).Nodup ∧ ∀ p ∈ srcs, goodSource p

lemma key_unique (srcs : SourceTable)
    (hnd : (srcs.map Prod.fst).Nodup) (k : String) (a b : SourceMem)
    (ha : (k, a) ∈ srcs) (hb : (k, b) ∈ srcs) : a = b := by
  have := List.inj_on_of_nodup_map hnd ha hb rfl
  simpa using congrArg Prod.snd this

lemma pickLoop_good :
    ∀ (srcs : SourceTable) (best : Option (String × ℚ)) (bid : String)
      (r : ℚ), pickLoop srcs best = some (bid, r) →
      best = some (bid, r) ∨
        ∃ sm, (bid, sm) ∈ srcs ∧ ¬ sm.availableSpots = 0 ∧
          sm.assignedHarvesters < (sm.availableSpots : ℤ) := by
  intro srcs
  induction srcs with
  | nil => intro best bid r h; exact Or.inl h
  | cons p rest ih =>
      obtain ⟨sid, sm⟩ := p
      intro best bid r h
      rw [pickLoop.eq_def] at h
      dsimp only at h
      by_cases h1 : sm.availableSpots = 0
      · rw [if_pos h1] at h
        rcases ih best bid r h with h2 | ⟨sm2, hmem, hgood⟩
        · exact Or.inl h2
        · exact Or.inr ⟨sm2, List.mem_cons_of_mem _ hmem, hgood⟩
      · rw [if_neg h1] at h
        by_cases h2 : (sm.availableSpots : ℤ) ≤ sm.assignedHarvesters
        · rw [if_pos h2] at h
          rcases ih best bid r h with h3 | ⟨sm2, hmem, hgood⟩
          · exact Or.inl h3
          · exact Or.inr ⟨sm2, List.mem_cons_of_mem _ hmem, hgood⟩
        · rw [if_neg h2] at h
          by_cases h3 : sm.nearKeeper = true
          · rw [if_pos h3] at h
            rcases ih best bid r h with h4 | ⟨sm2, hmem, hgood⟩
            · exact Or.inl h4
            · exact Or.inr ⟨sm2, List.mem_cons_of_mem _ hmem, hgood⟩
          · rw [if_neg h3] at h
            have hself : ∀ r0 : ℚ,
                some (sid, r0) = some (bid, r) →
                ∃ sm2, (bid, sm2) ∈ (sid, sm) :: rest ∧
                  ¬ sm2.availableSpots = 0 ∧
                  sm2.assignedHarvesters < (sm2.availableSpots : ℤ) := by
              intro r0 heq
              simp only [Option.some.injEq, Prod.mk.injEq] at heq
              refine ⟨sm, ?_, h1, by omega⟩
              rw [← heq.1]
              exact List.mem_cons_self _ _
            cases best with
            | none =>
                rcases ih _ bid r h with h4 | ⟨sm2, hmem, hgood⟩
                · exact Or.inr (hself _ h4)
                · exact Or.inr ⟨sm2, List.mem_cons_of_mem _ hmem, hgood⟩
            | some q =>
                obtain ⟨bid0, br⟩ := q
                dsimp only at h
                by_cases h5 :
                    (sm.assignedHarvesters : ℚ) / (sm.availableSpots : ℚ) < br
                · rw [if_pos h5] at h
                  rcases ih _ bid r h with h4 | ⟨sm2, hmem, hgood⟩
                  · exact Or.inr (hself _ h4)
                  · exact Or.inr ⟨sm2, List.mem_cons_of_mem _ hmem, hgood⟩
                · rw [if_neg h5] at h
                  rcases ih _ bid r h with h4 | ⟨sm2, hmem, hgood⟩
                  · exact Or.inl h4
                  · exact Or.inr ⟨sm2, List.mem_cons_of_mem _ hmem, hgood⟩

lemma getBestSource_inv (ex : String → Bool) (srcs : SourceTable)
    (hinv : SourceInv srcs) : SourceInv (getBestSource ex srcs).1 := by
  unfold getBestSource
  cases hpick : pickLoop srcs none with
  | none => exact hinv
  | some q =>
      obtain ⟨bid, r⟩ := q
      dsimp only
      rcases pickLoop_good srcs none bid r hpick with h1 | ⟨sm, hmem, hsp, hlt⟩
      · exact absurd h1 (by simp)
      by_cases hex : ex bid = true
      · rw [if_pos hex]
        constructor
        · have hkeys : (srcs.map (fun p =>
              if p.1 = bid then
                (p.1, { p.2 with
                  assignedHarvesters := p.2.assignedHarvesters + 1 })
              else p)).map Prod.fst = srcs.map Prod.fst := by
            rw [List.map_map]
            apply List.map_congr_left
            intro p _
            by_cases hkey : p.1 = bid
            · simp [hkey]
            · simp [hkey]
          rw [hkeys]
          exact hinv.1
        · intro p hp
          rcases List.mem_map.mp hp with ⟨p0, hp0, hp0eq⟩
          obtain ⟨k0, sm0⟩ := p0
          by_cases hkey : k0 = bid
          · rw [if_pos hkey] at hp0eq
            have hgood := hinv.2 (k0, sm0) hp0
            have hsm : sm0 = sm := by
              refine key_unique srcs hinv.1 bid sm0 sm ?_ hmem
              rw [← hkey]
              exact hp0
            rw [← hp0eq]
            have h1g : 0 ≤ sm0.assignedHarvesters := hgood.1
            have h2g : sm0.assignedHarvesters < (sm0.availableSpots : ℤ) := by
              rw [hsm]
              exact hlt
            show 0 ≤ sm0.assignedHarvesters + 1 ∧
              sm0.assignedHarvesters + 1 ≤ (sm0.availableSpots : ℤ)
            omega
          · rw [if_neg hkey] at hp0eq
            rw [← hp0eq]
            exact hinv.2 (k0, sm0) hp0
      · rw [if_neg hex]
        constructor
        · exact hinv.1.sublist ((List.filter_sublist srcs).map Prod.fst)
        · intro p hp
          exact hinv.2 p (List.mem_of_mem_filter hp)

lemma releaseSource_inv (srcs : SourceTable) (sid : String)
    (hinv : SourceInv srcs) : SourceInv (releaseSource srcs sid) := by
  constructor
  · have hkeys : (releaseSource srcs sid).map Prod.fst =
        srcs.map Prod.fst := by
      unfold releaseSource
      rw [List.map_map]
      apply List.map_congr_left
      intro p _
      by_cases hkey : p.1 = sid
      · simp [hkey]
      · simp [hkey]
    rw [hkeys]
    exact hinv.1
  · intro p hp
    rcases List.mem_map.mp hp with ⟨p0, hp0, hp0eq⟩
    obtain ⟨k0, sm0⟩ := p0
    have hgood := hinv.2 (k0, sm0) hp0
    by_cases hkey : k0 = sid
    · rw [if_pos hkey] at hp0eq
      rw [← hp0eq]
      simp only [goodSource] at hgood ⊢
      constructor
      · exact le_max_left 0 _
      · refine max_le (Int.natCast_nonneg _) ?_
        omega
    · rw [if_neg hkey] at hp0eq
      rw [← hp0eq]
      exact hgood

/-- C10: under any sequence of getBestSource and releaseSource calls on a
table with distinct keys and all counters within bounds, every
assignedHarvesters counter stays in the interval from zero to
availableSpots: getBestSource only increments a counter strictly below
availableSpots, because full, spotless and keeper-adjacent entries are
skipped by the selection loop, and releaseSource clamps the decrement at
zero. -/
theorem source_counter_bounds (srcs : SourceTable) (ops : List SourceOp)
    (hinv : SourceInv srcs) : SourceInv (runSourceOps srcs ops) := by
  induction ops generalizing srcs with
  | nil => exact hinv
  | cons op rest ih =>
      cases op with
      | acquire ex =>
          rw [runSourceOps]
          exact ih _ (getBestSource_inv ex srcs hinv)
      | release sid =>
          rw [runSourceOps]
          exact ih _ (releaseSource_inv srcs sid hinv)

/-- C10 witness: the bounds theorem applied to a concrete two-source table
under an acquire followed by two releases of an already empty source. -/
theorem source_counter_bounds_witness :
    SourceInv (runSourceOps
      [("s1", ⟨3, 1, false⟩), ("s2", ⟨2, 2, false⟩)]
      [SourceOp.acquire (fun _ => true), SourceOp.release "s1",
        SourceOp.release "s1", SourceOp.release "s1"]) :=
  source_counter_bounds
    [("s1", ⟨3, 1, false⟩), ("s2", ⟨2, 2, false⟩)]
    [SourceOp.acquire (fun _ => true), SourceOp.release "s1",
      SourceOp.release "s1", SourceOp.release "s1"]
    (by constructor
        · decide
        · intro p hp
          simp only [List.mem_cons, List.mem_singleton] at hp
          rcases hp with rfl | rfl | hp
          · exact ⟨by norm_num, by norm_num⟩
          · exact ⟨by norm_num, by norm_num⟩
          · simp at hp)

end QScreep
